import Mathlib

/-!
Verification development for the `claude-code-rag` ingestion core.

The definitions below are a shallow embedding of the Python source:
`mcp_server.py` (segmenters, sync state, the `rag_sync` / `rag_index` /
`rag_capture` tool loops, scope routing), `session_parser.py` (memory-type
classification, tag extraction, session parsing) and `web_ui.py` (the
dashboard's own scope routing).  Text is modelled as `List Char`;
Python `str.strip` / `str.lower` / slicing are modelled by the helpers
`pyStrip` / `pyLower` / `drop`+`take`.  External hash functions
(`hashlib.md5` / `hashlib.sha256`), content-addressed identifier
construction, JSON parsing and the embedding service are taken as
explicit function parameters, since their internals are library code that
the claims never depend on; everything else is translated from the source.
Fractional confidence scores are modelled as rationals: the source only
ever compares the fixed literals 0.5 .. 0.9, on which float comparison
agrees with rational comparison.
-/

/-- `containsSeg needle hay` holds when `needle` occurs as a contiguous
segment of `hay` — the semantics of Python `needle in hay` on strings. -/
def containsSeg (needle : List Char) : List Char → Bool
  | [] => needle.isEmpty
  | c :: rest => needle.isPrefixOf (c :: rest) || containsSeg needle rest

/-- Python whitespace characters recognised by `str.strip()` (ASCII range). -/
def isPySpace (c : Char) : Bool :=
  c = ' ' || c = '\t' || c = '\n' || c = '\r' || c = Char.ofNat 11 || c = Char.ofNat 12

/-- Model of Python `str.strip()`: drop whitespace at both ends. -/
def pyStrip (l : List Char) : List Char :=
  ((l.dropWhile isPySpace).reverse.dropWhile isPySpace).reverse

/-- Model of Python `str.lower()` on one character, covering the ASCII
letters and the Latin-1 accented capitals that occur in the classifier
patterns. -/
def pyLowerChar (c : Char) : Char :=
  if 'A' ≤ c ∧ c ≤ 'Z' then Char.ofNat (c.toNat + 32)
  else if 0xC0 ≤ c.toNat ∧ c.toNat ≤ 0xDE ∧ c.toNat ≠ 0xD7 then Char.ofNat (c.toNat + 32)
  else c

/-- Model of Python `str.lower()`. -/
def pyLower (l : List Char) : List Char := l.map pyLowerChar

/-- A segmenter output chunk: `{"text": ..., "type": ...}` in the source. -/
structure Chunk where
  text : List Char
  type : String
  deriving DecidableEq, Repr

/-- Model of Python `range(0, n, step)` where `step` comes from the signed
subtraction `chunk_size - overlap`: a zero step raises `ValueError`
(modelled as `none`), a negative step yields no indices, a positive step
yields `0, step, 2*step, ...` below `n`. -/
def pyRangeIdx (n : Nat) (step : Int) : Option (List Nat) :=
  if step = 0 then none
  else if step < 0 then some []
  else some ((List.range ((n + step.toNat - 1) / step.toNat)).map (· * step.toNat))

/-- One sliding window `content[i:i+chunk_size]`. -/
def pyWindow (content : List Char) (i chunkSize : Nat) : List Char :=
  (content.drop i).take chunkSize

/-- The window loop body shared by `chunk_generic` and the oversized
branch of `chunk_markdown`: each window is stripped and kept when the
stripped text is non-empty. -/
def windowChunksStripped (content : List Char) (chunkSize : Nat) (idxs : List Nat) :
    List Chunk :=
  idxs.filterMap (fun i =>
    if (pyStrip (pyWindow content i chunkSize)).isEmpty then none
    else some ⟨pyStrip (pyWindow content i chunkSize), "chunk"⟩)

/-- The fallback window comprehension of `chunk_python` /
`chunk_javascript`: the raw window text is kept (unstripped) when its
stripped form is non-empty. -/
def windowChunksRaw (content : List Char) (chunkSize : Nat) (idxs : List Nat) :
    List Chunk :=
  idxs.filterMap (fun i =>
    if (pyStrip (pyWindow content i chunkSize)).isEmpty then none
    else some ⟨pyWindow content i chunkSize, "chunk"⟩)

/-- `chunks if chunks else [{"text": content, "type": "chunk"}]`. -/
def genericAssemble (content : List Char) (chunks : List Chunk) : List Chunk :=
  if chunks.isEmpty then [⟨content, "chunk"⟩] else chunks

/-- `chunk_generic` from `mcp_server.py`: size-based windowing with the
fixed overlap 50; windows that strip to empty are dropped; if nothing
survives, a single fallback chunk holding the whole (unstripped) content
is returned. -/
def chunk_generic (content : List Char) (chunkSize : Nat) : Option (List Chunk) :=
  (pyRangeIdx content.length ((chunkSize : Int) - 50)).map (fun idxs =>
    genericAssemble content (windowChunksStripped content chunkSize idxs))

/-- `re.split(r"\n(?=## )", content)`: split at every newline that is
immediately followed by `## `; the newline itself is consumed. -/
def splitSections : List Char → List (List Char)
  | [] => [[]]
  | c :: rest =>
    if c = '\n' ∧ ('#' :: '#' :: ' ' :: []).isPrefixOf rest then
      [] :: splitSections rest
    else
      match splitSections rest with
      | s :: ss => (c :: s) :: ss
      | [] => [[c]]

/-- The per-section body of the loop in `chunk_markdown`: a small section
becomes one stripped `section` chunk (dropped when it strips to empty); an
oversized section is windowed with step `chunk_size - 50`. -/
def mdSection (chunkSize : Nat) (sec : List Char) : Option (List Chunk) :=
  if sec.length ≤ chunkSize then
    some (if (pyStrip sec).isEmpty then [] else [⟨pyStrip sec, "section"⟩])
  else
    (pyRangeIdx sec.length ((chunkSize : Int) - 50)).map
      (windowChunksStripped sec chunkSize)

/-- Sequences the `chunk_markdown` loop over all sections in order. -/
def mdChunks (chunkSize : Nat) : List (List Char) → Option (List Chunk)
  | [] => some []
  | s :: rest =>
    match mdSection chunkSize s, mdChunks chunkSize rest with
    | some cs, some csRest => some (cs ++ csRest)
    | _, _ => none

/-- `chunks if chunks else [{"text": content[:chunk_size], ...}]`. -/
def mdAssemble (content : List Char) (chunkSize : Nat) (chunks : List Chunk) :
    List Chunk :=
  if chunks.isEmpty then [⟨content.take chunkSize, "chunk"⟩] else chunks

/-- `chunk_markdown` from `mcp_server.py`: split on `## ` headers, chunk
each section, and fall back to a single `content[:chunk_size]` chunk when
nothing was produced. -/
def chunk_markdown (content : List Char) (chunkSize : Nat) : Option (List Chunk) :=
  (mdChunks chunkSize (splitSections content)).map (mdAssemble content chunkSize)

/-- Python `\w` word characters (ASCII range). -/
def isWordChar (c : Char) : Bool :=
  ('a' ≤ c ∧ c ≤ 'z') || ('A' ≤ c ∧ c ≤ 'Z') || ('0' ≤ c ∧ c ≤ '9') || c = '_'

/-- Matches `kw` followed by `\s+\w+` at the start of `line`, returning the
matched text (used for the `def`/`class` alternatives of the chunker
regexes). -/
def kwHeaderMatch (kw : String) (line : List Char) : Option (List Char) :=
  if kw.toList.isPrefixOf line then
    let r := line.drop kw.length
    let ws := r.takeWhile isPySpace
    if ws.isEmpty then none
    else
      let w := (r.drop ws.length).takeWhile isWordChar
      if w.isEmpty then none else some (kw.toList ++ ws ++ w)
  else none

/-- Model of `re.match(r"^((?:async\s+)?def\s+\w+|class\s+\w+)", line)`,
returning the text of capture group 1. -/
def pyDefHeader (line : List Char) : Option (List Char) :=
  let asyncBranch :=
    if ("async".toList).isPrefixOf line then
      let r := line.drop 5
      let ws := r.takeWhile isPySpace
      if ws.isEmpty then none
      else
        match kwHeaderMatch "def" (r.drop ws.length) with
        | some g => some ("async".toList ++ ws ++ g)
        | none => none
    else none
  match asyncBranch with
  | some g => some g
  | none =>
    match kwHeaderMatch "def" line with
    | some g => some g
    | none => kwHeaderMatch "class" line

/-- Python `content.split("\n")`. -/
def splitLines : List Char → List (List Char)
  | [] => [[]]
  | c :: rest =>
    if c = '\n' then [] :: splitLines rest
    else
      match splitLines rest with
      | s :: ss => (c :: s) :: ss
      | [] => [[c]]

/-- Flushing the accumulated `current_chunk` in `chunk_python` /
`chunk_javascript`: join with newlines, strip, and append when non-empty. -/
def flushChunk (cur : List (List Char)) (ty : String) (acc : List Chunk) : List Chunk :=
  if cur.isEmpty then acc
  else if (pyStrip (List.intercalate ['\n'] cur)).isEmpty then acc
  else acc ++ [⟨pyStrip (List.intercalate ['\n'] cur), ty⟩]

/-- The line loop shared by `chunk_python` and `chunk_javascript`,
parameterised by the header matcher and by how a header chooses the next
chunk type. -/
def defLineLoop (header : List Char → Option (List Char)) (typeOf : List Char → String) :
    List (List Char) → List (List Char) → String → List Chunk → List Chunk
  | [], cur, ty, acc => flushChunk cur ty acc
  | line :: rest, cur, ty, acc =>
    match header line with
    | some g => defLineLoop header typeOf rest [line] (typeOf g) (flushChunk cur ty acc)
    | none => defLineLoop header typeOf rest (cur ++ [line]) ty acc

/-- The def/class-delimited chunk list accumulated by the `chunk_python`
line loop; the chunk type is `function` when the matched header contains
`def ` and `class` otherwise. -/
def pyMainChunks (content : List Char) : List Chunk :=
  defLineLoop pyDefHeader
    (fun g => if containsSeg ("def ".toList) g then "function" else "class")
    (splitLines content) [] "module" []

/-- `chunk_python` from `mcp_server.py`: split into def/class-delimited
chunks; if none survive, fall back to windowing (with raw window text,
filtered on non-empty strip). -/
def chunk_python (content : List Char) (chunkSize : Nat) : Option (List Chunk) :=
  if (pyMainChunks content).isEmpty then
    (pyRangeIdx content.length ((chunkSize : Int) - 50)).map
      (windowChunksRaw content chunkSize)
  else some (pyMainChunks content)

/-- Matches `kw` followed by `\s+\w+\s*=` at the start of `line` (the
`const`/`let` alternatives of the JavaScript chunker regex). -/
def kwAssignMatch (kw : String) (line : List Char) : Option (List Char) :=
  if kw.toList.isPrefixOf line then
    let r := line.drop kw.length
    let ws := r.takeWhile isPySpace
    if ws.isEmpty then none
    else
      let r2 := r.drop ws.length
      let w := r2.takeWhile isWordChar
      if w.isEmpty then none
      else
        let r3 := r2.drop w.length
        let ws2 := r3.takeWhile isPySpace
        match r3.drop ws2.length with
        | '=' :: _ => some (kw.toList ++ ws ++ w ++ ws2 ++ ['='])
        | _ => none
  else none

/-- The four alternatives of the JavaScript chunker regex, after any
`export`/`async` prefixes. -/
def jsCoreHeader (line : List Char) : Option (List Char) :=
  match kwHeaderMatch "function" line with
  | some g => some g
  | none =>
    match kwAssignMatch "const" line with
    | some g => some g
    | none =>
      match kwAssignMatch "let" line with
      | some g => some g
      | none => kwHeaderMatch "class" line

/-- An optional `kw` + `\s+` prefix: returns the consumed text and the
rest, or leaves the line untouched when the prefix is absent. -/
def optKwPrefix (kw : String) (line : List Char) : Option (List Char × List Char) :=
  if kw.toList.isPrefixOf line then
    let r := line.drop kw.length
    let ws := r.takeWhile isPySpace
    if ws.isEmpty then none else some (kw.toList ++ ws, r.drop ws.length)
  else none

/-- Model of the JavaScript chunker regex
`^((?:export\s+)?(?:async\s+)?(function\s+\w+|const\s+\w+\s*=|let\s+\w+\s*=|class\s+\w+))`. -/
def jsHeader (line : List Char) : Option (List Char) :=
  let tryAsync := fun (pre : List Char) (l : List Char) =>
    match optKwPrefix "async" l with
    | some (pa, ra) =>
      match jsCoreHeader ra with
      | some g => some (pre ++ pa ++ g)
      | none => (jsCoreHeader l).map (pre ++ ·)
    | none => (jsCoreHeader l).map (pre ++ ·)
  match optKwPrefix "export" line with
  | some (pe, re') =>
    match tryAsync pe re' with
    | some g => some g
    | none => tryAsync [] line
  | none => tryAsync [] line

/-- The function-delimited chunk list accumulated by the
`chunk_javascript` line loop. -/
def jsMainChunks (content : List Char) : List Chunk :=
  defLineLoop jsHeader (fun _ => "function") (splitLines content) [] "module" []

/-- `chunk_javascript` from `mcp_server.py`. -/
def chunk_javascript (content : List Char) (chunkSize : Nat) : Option (List Chunk) :=
  if (jsMainChunks content).isEmpty then
    (pyRangeIdx content.length ((chunkSize : Int) - 50)).map
      (windowChunksRaw content chunkSize)
  else some (jsMainChunks content)

/-- `chunk_content` from `mcp_server.py`: route to the chunker by file type. -/
def chunk_content (content : List Char) (fileType : String) (chunkSize : Nat) :
    Option (List Chunk) :=
  if fileType = "markdown" then chunk_markdown content chunkSize
  else if fileType = "python" then chunk_python content chunkSize
  else if fileType = "javascript" ∨ fileType = "typescript" then
    chunk_javascript content chunkSize
  else chunk_generic content chunkSize

/-- Searched-anywhere match of one expanded alternative set: the regex
patterns of `session_parser.py` are concatenations of literal-alternation
groups, so `re.search(pattern, text)` succeeds exactly when one of the
expanded literal strings occurs in the text. -/
def anyContained (pats : List String) (hay : List Char) : Bool :=
  pats.any (fun p => containsSeg p.toList hay)

/-- All concatenations of one alternative from `xs` with one from `ys`
(an optional regex group contributes the empty alternative). -/
def combos2 (xs ys : List String) : List String :=
  xs.flatMap (fun x => ys.map (fun y => x ++ y))

def combos3 (xs ys zs : List String) : List String :=
  combos2 (combos2 xs ys) zs

def combos4 (xs ys zs ws : List String) : List String :=
  combos2 (combos3 xs ys zs) ws

/-- `DECISION_PATTERNS` from `session_parser.py`, each regex expanded into
its set of literal alternatives. -/
def DECISION_PATTERNS : List (List String) :=
  [ combos2 ["", "j\x27ai ", "on a ", "we "]
      ["décidé", "decided", "choisi", "chose", "chosen", "opté", "opted"],
    combos2 ["", "on va ", "we will ", "let\x27s "]
      ["utiliser", "use", "prendre", "take", "aller avec", "go with"],
    combos3 ["", "the ", "la ", "le "]
      ["solution", "approche", "approach", "stratégie", "strategy"]
      [" est", " is", " sera", " will be"],
    combos2 ["", "j\x27", "i "] ["préfère", "prefer", "recommande", "recommend"],
    combos3 ["", "on ", "we "] ["part", "go"] [" sur", " with", " for"] ]

/-- `BUGFIX_PATTERNS` from `session_parser.py`. -/
def BUGFIX_PATTERNS : List (List String) :=
  [ combos2 ["", "le ", "the "]
      ["fix", "correctif", "solution", "problème résolu", "problem solved"],
    combos2 ["", "j\x27ai ", "i "]
      ["fixé", "fixed", "corrigé", "corrected", "résolu", "resolved", "réparé", "repaired"],
    combos3 ["", "le ", "the "] ["bug", "erreur", "error", "issue"]
      [" était", " was", " venait", " came from"],
    combos3 ["", "ça ", "it "] ["marche", "works"] [" maintenant", " now"],
    combos3 ["", "le ", "the "] ["problème", "problem", "issue"]
      [" c\x27était", " was", " est", " is"] ]

/-- `ARCHITECTURE_PATTERNS` from `session_parser.py`. -/
def ARCHITECTURE_PATTERNS : List (List String) :=
  [ combos2 ["", "l\x27", "the "] ["architecture"],
    combos4 ["", "la ", "the "] ["structure "] ["", "du ", "of the "]
      ["projet", "project", "code"],
    combos2 ["", "le ", "the "] ["design", "pattern", "modèle"],
    combos2 ["", "on ", "we "] ["organise", "organize", "structure"],
    combos2 ["", "les ", "the "] ["composants", "components", "modules", "services"] ]

/-- `PREFERENCE_PATTERNS` from `session_parser.py`. -/
def PREFERENCE_PATTERNS : List (List String) :=
  [ combos2 ["", "je ", "i "] ["préfère", "prefer", "aime", "like", "veux", "want"],
    combos2 ["toujours ", "always "] ["utiliser", "use", "faire", "do"],
    combos2 ["ne ", "don\x27t "] ["jamais", "never"],
    ["par défaut", "by default"],
    combos2 ["", "ma ", "my "] ["règle", "rule", "convention"] ]

/-- The backquote character, used by the code-fence pattern. -/
def backquote : Char := Char.ofNat 96

/-- After three backquotes: zero or more word characters then a newline
(the `[\w]*\n` tail of the first snippet pattern). -/
def fenceTail : List Char → Bool
  | [] => false
  | c :: rest => if c = '\n' then true else if isWordChar c then fenceTail rest else false

/-- Search for the code-fence pattern ``` `[\w]*\n `` anywhere in the text. -/
def hasCodeFence : List Char → Bool
  | [] => false
  | c1 :: rest =>
    (match c1 :: rest with
     | a :: b :: c :: t => a = backquote && b = backquote && c = backquote && fenceTail t
     | _ => false) || hasCodeFence rest

/-- `SNIPPET_PATTERNS` from `session_parser.py`, in source order: the
code-fence regex, then the two literal-alternation regexes. -/
def snippetMatch (hay : List Char) : Bool :=
  hasCodeFence hay ||
  anyContained (combos3 ["voici", "here\x27s", "here is"] [" ", " le ", " the "]
    ["code", "script", "commande", "command"]) hay ||
  anyContained ["exemple:", "example:", "sample:"] hay

/-- One ordered pattern-list category matches when any of its patterns
matches (`re.search` inside the `for pattern in ...` loops). -/
def matchCategory (pats : List (List String)) (hay : List Char) : Bool :=
  pats.any (fun p => anyContained p hay)

/-- `detect_memory_type` from `session_parser.py`: lowercase the text, try
the categories in the fixed order decision, bugfix, architecture,
preference, snippet, and return the first match with its fixed
confidence; default `("context", 0.5)`. -/
def detect_memory_type (text : List Char) : String × ℚ :=
  let lower := pyLower text
  if matchCategory DECISION_PATTERNS lower then ("decision", 0.8)
  else if matchCategory BUGFIX_PATTERNS lower then ("bugfix", 0.8)
  else if matchCategory ARCHITECTURE_PATTERNS lower then ("architecture", 0.7)
  else if matchCategory PREFERENCE_PATTERNS lower then ("preference", 0.7)
  else if snippetMatch lower then ("snippet", 0.6)
  else ("context", 0.5)

/-- The `tech_keywords` vocabulary of `extract_tags`, in scan order. -/
def tech_keywords : List String :=
  [ "python", "javascript", "typescript", "rust", "go", "java",
    "docker", "kubernetes", "k8s", "nginx", "postgres", "postgresql",
    "mysql", "redis", "mongodb", "sqlite", "git", "github",
    "api", "rest", "graphql", "grpc", "http", "https",
    "linux", "windows", "macos", "ubuntu", "debian", "arch", "cachyos",
    "npm", "pip", "cargo", "pacman", "apt", "brew",
    "react", "vue", "angular", "svelte", "nextjs", "fastapi", "flask", "django",
    "ollama", "rocm", "cuda", "gpu", "cpu", "ram", "nvme", "ssd",
    "systemd", "grub", "kernel", "bios", "uefi" ]

/-- `extract_tags` from `session_parser.py`: keep the keywords occurring in
the lowercased text, in vocabulary order, capped at 5. -/
def extract_tags (text : List Char) : List String :=
  (tech_keywords.filter (fun k => containsSeg k.toList (pyLower text))).take 5

/-- `ExtractedMemory` from `session_parser.py`. -/
structure ExtractedMemory where
  content : List Char
  memory_type : String
  source : String
  timestamp : String
  confidence : ℚ
  tags : List String
  deriving DecidableEq

/-- The per-text-block body of `parse_session_file` for an assistant
utterance: texts of length > 50 are classified and yielded only when the
classification confidence is at least 0.7 (`if confidence >= 0.7` in the
source); the content is truncated to 2000 characters. -/
def memory_from_text (src timestamp : String) (text : List Char) :
    Option ExtractedMemory :=
  if 50 < text.length then
    if 0.7 ≤ (detect_memory_type text).2 then
      some ⟨text.take 2000, (detect_memory_type text).1, src, timestamp,
        (detect_memory_type text).2, extract_tags text⟩
    else none
  else none

/-- The `rag_capture` consumer loop in `mcp_server.py`: candidates below
the minimum confidence are counted as skipped and dropped, the rest kept
in order. -/
def rag_capture_filter (mems : List ExtractedMemory) (minConf : ℚ) :
    List ExtractedMemory × Nat :=
  mems.foldl
    (fun acc m => if m.confidence < minConf then (acc.1, acc.2 + 1) else (acc.1 ++ [m], acc.2))
    ([], 0)

/-- The slice of chunk metadata that the sync claims depend on: the stored
document text and its `source` metadata field (the deletion filter of
`rag_sync` selects on `source`). -/
structure DocRecord where
  text : List Char
  source : String
  deriving DecidableEq

/-- One scope's ChromaDB collection, as an id-keyed association list. -/
abbrev Store := List (String × DocRecord)

/-- `collection.upsert` with a single id: overwrite the row with this id
when present, append otherwise. -/
def upsert (store : Store) (id : String) (r : DocRecord) : Store :=
  if store.any (fun e => e.1 = id) then
    store.map (fun e => if e.1 = id then (id, r) else e)
  else store ++ [(id, r)]

/-- The delete step of `rag_sync`: `collection.get(where={"source": pat})`
collects the matching ids, then `collection.delete(ids=...)` removes those
rows. -/
def deleteSource (store : Store) (pat : String) : Store :=
  let ids := (store.filter (fun e => e.2.source = pat)).map (fun e => e.1)
  store.filter (fun e => ¬ ids.contains e.1)

/-- A `SyncEntry`: the value stored in `sync_state.json` under one
`scope:path` key. -/
structure SyncEntry where
  hash : String
  indexedAt : String
  chunks : Nat
  deriving DecidableEq

/-- The sync-state table (a JSON object in the source). -/
abbrev SyncState := List (String × SyncEntry)

def stLookup : SyncState → String → Option SyncEntry
  | [], _ => none
  | (k, v) :: rest, key => if k = key then some v else stLookup rest key

def stSet : SyncState → String → SyncEntry → SyncState
  | [], key, v => [(key, v)]
  | (k, w) :: rest, key, v =>
    if k = key then (key, v) :: rest else (k, w) :: stSet rest key v

/-- `get_sync_state` from `mcp_server.py`: a missing file or a parse
failure (`json.JSONDecodeError`, `IOError`) yields the empty table.  The
JSON parser is passed as a function, `none` standing for a raised
decode error. -/
def get_sync_state (raw : Option (List Char))
    (parseJson : List Char → Option SyncState) : SyncState :=
  match raw with
  | none => []
  | some s =>
    match parseJson s with
    | some st => st
    | none => []

/-- The sync-state key `f"{scope}:{filepath}"`. -/
def stateKey (scope filepath : String) : String := scope ++ ":" ++ filepath

/-- The source metadata value `f"file:{filepath}"` used by `rag_sync`. -/
def sourcePat (filepath : String) : String := "file:" ++ filepath

/-- The per-chunk loop of `rag_sync`: embed chunk `i`, then upsert it under
`generate_chunk_id(chunk_text, filepath, i)` (the id scheme is the
`chunkId` parameter).  A failing embedding call raises, leaving the rows
upserted so far; the `Bool` records whether the loop completed. -/
def syncUpsertLoop (embed : List Char → Except Unit Unit)
    (chunkId : List Char → String → Nat → String) (filepath : String) :
    List Chunk → Nat → Store → Store × Bool
  | [], _, st => (st, true)
  | ch :: rest, i, st =>
    match embed ch.text with
    | Except.error _ => (st, false)
    | Except.ok _ =>
      syncUpsertLoop embed chunkId filepath rest (i + 1)
        (upsert st (chunkId ch.text filepath i) ⟨ch.text, sourcePat filepath⟩)

/-- Outcome of one path inside the `rag_sync` loop. -/
inductive FileResult where
  | updated (chunks : Nat)
  | unchanged
  | notFound
  | aborted
  deriving DecidableEq

/-- The loop body of the `rag_sync` tool for one path (`mcp_server.py`,
`call_tool`): missing path is reported and nothing is touched; an equal
stored hash (without `force`) is reported unchanged; otherwise all rows
whose `source` matches the path are deleted, the file content is
segmented, each chunk embedded and upserted, and the in-memory sync state
entry replaced.  `aborted` marks an exception escaping the loop (a failed
embedding call, or the `ValueError` of a dead windowing step). -/
def sync_file (embed : List Char → Except Unit Unit) (fileHash : List Char → String)
    (chunkId : List Char → String → Nat → String) (scope : String) (force : Bool)
    (now : String) (store : Store) (state : SyncState) (filepath : String)
    (content? : Option (List Char)) (fileType : String) :
    Store × SyncState × FileResult :=
  match content? with
  | none => (store, state, FileResult.notFound)
  | some content =>
    let currentHash := fileHash content
    let stored := (stLookup state (stateKey scope filepath)).map (fun e => e.hash)
    if force = false ∧ stored = some currentHash then
      (store, state, FileResult.unchanged)
    else
      let store1 := deleteSource store (sourcePat filepath)
      match chunk_content content fileType 500 with
      | none => (store1, state, FileResult.aborted)
      | some chunks =>
        match syncUpsertLoop embed chunkId filepath chunks 0 store1 with
        | (store2, false) => (store2, state, FileResult.aborted)
        | (store2, true) =>
          (store2,
           stSet state (stateKey scope filepath) ⟨currentHash, now, chunks.length⟩,
           FileResult.updated chunks.length)

/-- Outcome of a whole `rag_sync` call: either the aggregate report
(updated, unchanged, not-found lists) or a single error reply produced by
the `except` handler around the loop. -/
inductive SyncOutcome where
  | ok (updated : List (String × Nat)) (skipped : List String) (notFound : List String)
  | aborted
  deriving DecidableEq

/-- The `for filepath in paths` loop of `rag_sync`.  An `aborted` file
result is an exception escaping the loop: remaining paths are not
processed and `save_sync_state` is never reached. -/
def rag_sync_loop (embed : List Char → Except Unit Unit) (fileHash : List Char → String)
    (chunkId : List Char → String → Nat → String) (scope : String) (force : Bool)
    (now : String) :
    List (String × Option (List Char) × String) → Store → SyncState →
    List (String × Nat) → List String → List String →
    Store × SyncState × Option (List (String × Nat) × List String × List String)
  | [], store, sm, upd, skip, nf => (store, sm, some (upd, skip, nf))
  | (fp, c?, ft) :: rest, store, sm, upd, skip, nf =>
    match sync_file embed fileHash chunkId scope force now store sm fp c? ft with
    | (st, sm', FileResult.notFound) =>
      rag_sync_loop embed fileHash chunkId scope force now rest st sm' upd skip (nf ++ [fp])
    | (st, sm', FileResult.unchanged) =>
      rag_sync_loop embed fileHash chunkId scope force now rest st sm' upd (skip ++ [fp]) nf
    | (st, sm', FileResult.updated n) =>
      rag_sync_loop embed fileHash chunkId scope force now rest st sm' (upd ++ [(fp, n)]) skip nf
    | (st, sm', FileResult.aborted) => (st, sm', none)

/-- A whole `rag_sync` call over a batch of paths.  On normal completion
the in-memory state is persisted (`save_sync_state`); when an exception
aborts the loop the handler returns one error message and the persisted
state is the original one. -/
def rag_sync_model (embed : List Char → Except Unit Unit) (fileHash : List Char → String)
    (chunkId : List Char → String → Nat → String) (scope : String) (force : Bool)
    (now : String) (files : List (String × Option (List Char) × String))
    (store : Store) (state : SyncState) : Store × SyncState × SyncOutcome :=
  match rag_sync_loop embed fileHash chunkId scope force now files store state [] [] [] with
  | (st, sm, some r) => (st, sm, SyncOutcome.ok r.1 r.2.1 r.2.2)
  | (st, _, none) => (st, state, SyncOutcome.aborted)

/-- The embedding list comprehension of `rag_index`
(`[get_embedding(c["text"]) for c in chunks]`): all chunks are embedded
before any upsert; the first failure raises. -/
def embedAll (embed : List Char → Except Unit Unit) : List Chunk → Bool
  | [] => true
  | ch :: rest =>
    match embed ch.text with
    | Except.ok _ => embedAll embed rest
    | Except.error _ => false

/-- The positional-id batch upsert of `rag_index`: chunk `i` of a file goes
in under `f"{doc_id}_{i}"` with `source` set to the file path. -/
def indexUpserts (docId : String) (fp : String) : List Chunk → Nat → Store → Store
  | [], _, st => st
  | ch :: rest, i, st =>
    indexUpserts docId fp rest (i + 1)
      (upsert st (docId ++ "_" ++ toString i) ⟨ch.text, fp⟩)

/-- Outcome of one file inside the `rag_index` loop. -/
inductive IndexFileResult where
  | skipped
  | indexed (chunks : Nat)
  | aborted
  deriving DecidableEq

/-- The loop body of `rag_index` for one file: a `UnicodeDecodeError`
(`Except.error` content) is skipped with `continue`; otherwise the file is
segmented, every chunk embedded, and the batch upserted under positional
ids.  `docIdFn` models `hashlib.md5(str(filepath)).hexdigest()[:8]`. -/
def index_file (embed : List Char → Except Unit Unit) (docIdFn : String → String)
    (store : Store) (fp : String) (content : Except Unit (List Char)) (ft : String) :
    Store × IndexFileResult :=
  match content with
  | Except.error _ => (store, IndexFileResult.skipped)
  | Except.ok c =>
    match chunk_content c ft 500 with
    | none => (store, IndexFileResult.aborted)
    | some chunks =>
      if embedAll embed chunks then
        (indexUpserts (docIdFn fp) fp chunks 0 store, IndexFileResult.indexed chunks.length)
      else (store, IndexFileResult.aborted)

/-- The `for filepath in files` loop of `rag_index`: skipped files are
silently passed over, an exception aborts the whole call (single error
reply, no aggregate), and each indexed file contributes to the report. -/
def rag_index_loop (embed : List Char → Except Unit Unit) (docIdFn : String → String) :
    List (String × Except Unit (List Char) × String) → Store → List (String × Nat) →
    Store × Option (List (String × Nat))
  | [], store, acc => (store, some acc)
  | (fp, cnt, ft) :: rest, store, acc =>
    match index_file embed docIdFn store fp cnt ft with
    | (st, IndexFileResult.skipped) => rag_index_loop embed docIdFn rest st acc
    | (st, IndexFileResult.indexed n) => rag_index_loop embed docIdFn rest st (acc ++ [(fp, n)])
    | (st, IndexFileResult.aborted) => (st, none)

/-- A whole `rag_index` call over the discovered files. -/
def rag_index_model (embed : List Char → Except Unit Unit) (docIdFn : String → String)
    (files : List (String × Except Unit (List Char) × String)) (store : Store) :
    Store × Option (List (String × Nat)) :=
  rag_index_loop embed docIdFn files store []

/-- `os.path.join` for an absolute base without trailing slash and a
relative component, as used by both `get_db_path` implementations. -/
def joinPath (a b : String) : String := a ++ "/" ++ b

/-- `get_project_id` from `mcp_server.py`:
`hashlib.md5(PROJECT_PATH.encode()).hexdigest()[:12]`.  The md5 hex digest
is the `md5hex` parameter. -/
def mcp_get_project_id (md5hex : String → String) (projectPath : String) : String :=
  (md5hex projectPath).take 12

/-- `get_db_path` from `mcp_server.py`: `global` maps to
`CHROMA_PATH/global`, anything else to `CHROMA_PATH/projects/{id}`. -/
def mcp_get_db_path (md5hex : String → String) (chromaPath projectPath scope : String) :
    String :=
  if scope = "global" then joinPath chromaPath "global"
  else joinPath (joinPath chromaPath "projects") (mcp_get_project_id md5hex projectPath)

/-- `get_project_id` from `web_ui.py`:
`hashlib.sha256(PROJECT_PATH.encode()).hexdigest()[:12]`. -/
def webui_get_project_id (sha256hex : String → String) (projectPath : String) : String :=
  (sha256hex projectPath).take 12

/-- `get_db_path` from `web_ui.py`: `global` maps to `chroma_base/global`,
anything else to `chroma_base/{id}` — with no `projects` component. -/
def webui_get_db_path (sha256hex : String → String) (chromaBase projectPath scope : String) :
    String :=
  if scope = "global" then joinPath chromaBase "global"
  else joinPath chromaBase (webui_get_project_id sha256hex projectPath)

/-! ### Helper lemmas -/

lemma length_pyStrip_le (l : List Char) : (pyStrip l).length ≤ l.length := by
  unfold pyStrip
  simp only [List.length_reverse]
  calc ((l.dropWhile isPySpace).reverse.dropWhile isPySpace).length
      ≤ (l.dropWhile isPySpace).reverse.length :=
        (List.dropWhile_sublist _).length_le
    _ = (l.dropWhile isPySpace).length := List.length_reverse _
    _ ≤ l.length := (List.dropWhile_sublist _).length_le

lemma dropWhile_self (p : Char → Bool) (l : List Char) :
    (l.dropWhile p).dropWhile p = l.dropWhile p := by
  induction l with
  | nil => rfl
  | cons a l ih =>
    by_cases h : p a
    · simp [List.dropWhile_cons, h, ih]
    · simp [List.dropWhile_cons, h]

lemma dropWhile_append_last (p : Char → Bool) (a : Char) (h : p a = false)
    (l : List Char) : (l ++ [a]).dropWhile p = l.dropWhile p ++ [a] := by
  induction l with
  | nil => simp [List.dropWhile_cons, h]
  | cons x l ih =>
    by_cases hx : p x
    · simp [List.dropWhile_cons, hx, ih]
    · simp [List.dropWhile_cons, hx]

lemma dropWhile_eq_cons_head (p : Char → Bool) (l : List Char) (a : Char)
    (t : List Char) (h : l.dropWhile p = a :: t) : p a = false := by
  induction l with
  | nil => simp [List.dropWhile] at h
  | cons x l ih =>
    by_cases hx : p x
    · rw [List.dropWhile_cons, if_pos hx] at h; exact ih h
    · rw [List.dropWhile_cons, if_neg hx] at h
      obtain ⟨rfl, -⟩ := List.cons.inj h
      exact Bool.not_eq_true _ ▸ Bool.eq_false_iff.mpr hx

lemma pyStrip_idem (l : List Char) : pyStrip (pyStrip l) = pyStrip l := by
  unfold pyStrip
  cases h1 : l.dropWhile isPySpace with
  | nil => simp
  | cons a t =>
    have ha : isPySpace a = false := dropWhile_eq_cons_head _ _ _ _ h1
    simp only [List.reverse_cons, dropWhile_append_last _ _ ha, List.reverse_append,
      List.reverse_reverse, List.reverse_nil, List.nil_append, List.singleton_append,
      List.dropWhile_cons, ha, Bool.false_eq_true, if_false, dropWhile_self]

lemma pyRangeIdx_isSome (n : Nat) (s : Int) (h : s ≠ 0) : (pyRangeIdx n s).isSome := by
  unfold pyRangeIdx
  rw [if_neg h]
  split <;> rfl

lemma pyWindow_length_le (c : List Char) (i n : Nat) : (pyWindow c i n).length ≤ n := by
  simp only [pyWindow, List.length_take]
  exact Nat.min_le_left n (c.drop i).length

lemma windowChunksStripped_mem (c : List Char) (n : Nat) (idxs : List Nat)
    (ch : Chunk) (hm : ch ∈ windowChunksStripped c n idxs) :
    ch.text.length ≤ n ∧ pyStrip ch.text ≠ [] := by
  unfold windowChunksStripped at hm
  obtain ⟨i, -, hi⟩ := List.mem_filterMap.mp hm
  split at hi
  · exact Option.noConfusion hi
  · next he =>
    obtain rfl := Option.some.inj hi
    refine ⟨le_trans (length_pyStrip_le _) (pyWindow_length_le c i n), ?_⟩
    rw [pyStrip_idem]
    simp only [List.isEmpty_iff] at he
    exact he

lemma windowChunksRaw_mem (c : List Char) (n : Nat) (idxs : List Nat)
    (ch : Chunk) (hm : ch ∈ windowChunksRaw c n idxs) :
    ch.text.length ≤ n ∧ pyStrip ch.text ≠ [] := by
  unfold windowChunksRaw at hm
  obtain ⟨i, -, hi⟩ := List.mem_filterMap.mp hm
  split at hi
  · exact Option.noConfusion hi
  · next he =>
    obtain rfl := Option.some.inj hi
    refine ⟨pyWindow_length_le c i n, ?_⟩
    simp only [List.isEmpty_iff] at he
    exact he

lemma chunk_generic_inv (c : List Char) (n : Nat) (l : List Chunk)
    (h : chunk_generic c n = some l) (ch : Chunk) (hm : ch ∈ l) :
    (ch.text.length ≤ n ∧ pyStrip ch.text ≠ []) ∨ l = [⟨c, "chunk"⟩] := by
  unfold chunk_generic at h
  obtain ⟨idxs, -, hl⟩ := Option.map_eq_some'.mp h
  rw [genericAssemble] at hl
  split at hl
  · right; exact hl.symm
  · left; exact windowChunksStripped_mem c n idxs ch (hl ▸ hm)

lemma mdSection_inv (n : Nat) (sec : List Char) (cs : List Chunk)
    (h : mdSection n sec = some cs) (ch : Chunk) (hm : ch ∈ cs) :
    ch.text.length ≤ n ∧ pyStrip ch.text ≠ [] := by
  unfold mdSection at h
  split at h
  · next hlen =>
    obtain rfl := Option.some.inj h
    split at hm
    · exact absurd hm (List.not_mem_nil ch)
    · next hne =>
      obtain rfl := List.mem_singleton.mp hm
      exact ⟨le_trans (length_pyStrip_le _) hlen,
        by rw [pyStrip_idem]; simpa [List.isEmpty_iff] using hne⟩
  · obtain ⟨idxs, -, hl⟩ := Option.map_eq_some'.mp h
    exact windowChunksStripped_mem sec n idxs ch (hl ▸ hm)

lemma mdChunks_inv (n : Nat) (secs : List (List Char)) (cs : List Chunk)
    (h : mdChunks n secs = some cs) (ch : Chunk) (hm : ch ∈ cs) :
    ch.text.length ≤ n ∧ pyStrip ch.text ≠ [] := by
  induction secs generalizing cs with
  | nil =>
    obtain rfl := Option.some.inj h
    exact absurd hm (List.not_mem_nil ch)
  | cons s rest ih =>
    unfold mdChunks at h
    cases h1 : mdSection n s with
    | none => rw [h1] at h; exact Option.noConfusion h
    | some c1 =>
      cases h2 : mdChunks n rest with
      | none => rw [h1, h2] at h; exact Option.noConfusion h
      | some c2 =>
        rw [h1, h2] at h
        obtain rfl := Option.some.inj h
        rcases List.mem_append.mp hm with hm1 | hm2
        · exact mdSection_inv n s c1 h1 ch hm1
        · exact ih c2 h2 hm2

lemma chunk_markdown_inv (c : List Char) (n : Nat) (l : List Chunk)
    (h : chunk_markdown c n = some l) (ch : Chunk) (hm : ch ∈ l) :
    ch.text.length ≤ n ∧ (pyStrip ch.text ≠ [] ∨ l = [⟨c.take n, "chunk"⟩]) := by
  unfold chunk_markdown at h
  obtain ⟨chunks, hc, hl⟩ := Option.map_eq_some'.mp h
  rw [mdAssemble] at hl
  split at hl
  · subst hl
    obtain rfl := List.mem_singleton.mp hm
    exact ⟨by simp only [List.length_take]; exact Nat.min_le_left n c.length, Or.inr rfl⟩
  · subst hl
    obtain ⟨h1, h2⟩ := mdChunks_inv n (splitSections c) chunks hc ch hm
    exact ⟨h1, Or.inl h2⟩

lemma flushChunk_strip (cur : List (List Char)) (ty : String) (acc : List Chunk)
    (hacc : ∀ ch ∈ acc, pyStrip ch.text ≠ []) (ch : Chunk)
    (hm : ch ∈ flushChunk cur ty acc) : pyStrip ch.text ≠ [] := by
  unfold flushChunk at hm
  split at hm
  · exact hacc ch hm
  · split at hm
    · exact hacc ch hm
    · next hne =>
      rcases List.mem_append.mp hm with h1 | h2
      · exact hacc ch h1
      · obtain rfl := List.mem_singleton.mp h2
        rw [pyStrip_idem]
        simpa [List.isEmpty_iff] using hne

lemma defLineLoop_strip (header : List Char → Option (List Char))
    (typeOf : List Char → String) (lines : List (List Char)) :
    ∀ cur ty acc, (∀ ch ∈ acc, pyStrip ch.text ≠ []) →
    ∀ ch ∈ defLineLoop header typeOf lines cur ty acc, pyStrip ch.text ≠ [] := by
  induction lines with
  | nil =>
    intro cur ty acc hacc ch hm
    unfold defLineLoop at hm
    exact flushChunk_strip cur ty acc hacc ch hm
  | cons line rest ih =>
    intro cur ty acc hacc ch hm
    unfold defLineLoop at hm
    cases hh : header line with
    | some g =>
      rw [hh] at hm
      exact ih [line] (typeOf g) (flushChunk cur ty acc)
        (fun c hc => flushChunk_strip cur ty acc hacc c hc) ch hm
    | none =>
      rw [hh] at hm
      exact ih (cur ++ [line]) ty acc hacc ch hm

lemma chunk_python_inv (c : List Char) (n : Nat) (l : List Chunk)
    (h : chunk_python c n = some l) (ch : Chunk) (hm : ch ∈ l) :
    pyStrip ch.text ≠ [] := by
  unfold chunk_python at h
  split at h
  · obtain ⟨idxs, -, hl⟩ := Option.map_eq_some'.mp h
    exact (windowChunksRaw_mem c n idxs ch (hl ▸ hm)).2
  · obtain rfl := Option.some.inj h
    exact defLineLoop_strip _ _ _ [] "module" []
      (fun c hc => absurd hc (List.not_mem_nil c)) ch hm

lemma isSome_map_of {α β : Type} (o : Option α) (f : α → β) (h : o.isSome) :
    (o.map f).isSome := by
  obtain ⟨x, hx⟩ := Option.isSome_iff_exists.mp h
  rw [hx]
  rfl

lemma mdSection_isSome (n : Nat) (hn : (n : Int) - 50 ≠ 0) (sec : List Char) :
    (mdSection n sec).isSome := by
  unfold mdSection
  split
  · rfl
  · exact isSome_map_of _ _ (pyRangeIdx_isSome _ _ hn)

lemma mdChunks_isSome (n : Nat) (hn : (n : Int) - 50 ≠ 0) (secs : List (List Char)) :
    (mdChunks n secs).isSome := by
  induction secs with
  | nil => rfl
  | cons s rest ih =>
    unfold mdChunks
    obtain ⟨c1, h1⟩ := Option.isSome_iff_exists.mp (mdSection_isSome n hn s)
    obtain ⟨c2, h2⟩ := Option.isSome_iff_exists.mp ih
    rw [h1, h2]
    rfl

lemma chunk_content_isSome (c : List Char) (ft : String) (n : Nat)
    (hn : (n : Int) - 50 ≠ 0) : (chunk_content c ft n).isSome := by
  unfold chunk_content
  split
  · unfold chunk_markdown
    exact isSome_map_of _ _ (mdChunks_isSome n hn (splitSections c))
  · split
    · unfold chunk_python
      split
      · exact isSome_map_of _ _ (pyRangeIdx_isSome _ _ hn)
      · rfl
    · split
      · unfold chunk_javascript
        split
        · exact isSome_map_of _ _ (pyRangeIdx_isSome _ _ hn)
        · rfl
      · unfold chunk_generic
        exact isSome_map_of _ _ (pyRangeIdx_isSome _ _ hn)

lemma upsert_mem (st : Store) (id : String) (r : DocRecord) (e : String × DocRecord)
    (he : e ∈ upsert st id r) : e ∈ st ∨ e = (id, r) := by
  unfold upsert at he
  split at he
  · obtain ⟨x, hx, hfx⟩ := List.mem_map.mp he
    by_cases hid : x.1 = id
    · right; rw [if_pos hid] at hfx; exact hfx.symm
    · left; rw [if_neg hid] at hfx; exact hfx ▸ hx
  · rcases List.mem_append.mp he with h1 | h2
    · exact Or.inl h1
    · exact Or.inr (List.mem_singleton.mp h2)

lemma deleteSource_not_source (st : Store) (pat : String) (e : String × DocRecord)
    (he : e ∈ deleteSource st pat) : e.2.source ≠ pat := by
  unfold deleteSource at he
  rw [List.mem_filter] at he
  intro hsrc
  have hin : e.1 ∈ (st.filter (fun x => x.2.source = pat)).map (fun x => x.1) :=
    List.mem_map.mpr ⟨e, List.mem_filter.mpr ⟨he.1, by simp [hsrc]⟩, rfl⟩
  have h2 := he.2
  simp only [decide_eq_true_eq] at h2
  exact h2 (List.elem_eq_true_of_mem hin)

lemma syncUpsertLoop_complete (embed : List Char → Except Unit Unit)
    (cid : List Char → String → Nat → String) (fp : String)
    (hE : ∀ t, embed t = Except.ok ()) :
    ∀ (chunks : List Chunk) (i : Nat) (st : Store),
      (syncUpsertLoop embed cid fp chunks i st).2 = true := by
  intro chunks
  induction chunks with
  | nil => intro i st; rfl
  | cons ch rest ih =>
    intro i st
    unfold syncUpsertLoop
    rw [hE ch.text]
    exact ih _ _

lemma syncUpsertLoop_source_inv (embed : List Char → Except Unit Unit)
    (cid : List Char → String → Nat → String) (fp : String) (texts : List (List Char)) :
    ∀ (chunks : List Chunk), (∀ ch ∈ chunks, ch.text ∈ texts) →
    ∀ (i : Nat) (st : Store), (∀ e ∈ st, e.2.source = sourcePat fp → e.2.text ∈ texts) →
    ∀ e ∈ (syncUpsertLoop embed cid fp chunks i st).1,
      e.2.source = sourcePat fp → e.2.text ∈ texts := by
  intro chunks
  induction chunks with
  | nil => intro _ i st hst e he; exact hst e he
  | cons ch rest ih =>
    intro hch i st hst e he
    unfold syncUpsertLoop at he
    cases hemb : embed ch.text with
    | error u => rw [hemb] at he; exact hst e he
    | ok u =>
      rw [hemb] at he
      refine ih (fun c hc => hch c (List.mem_cons_of_mem _ hc)) _ _ ?_ e he
      intro f hf hsrc
      rcases upsert_mem _ _ _ _ hf with h1 | h2
      · exact hst f h1 hsrc
      · subst h2; exact hch ch (List.mem_cons_self _ _)

lemma stLookup_stSet_self (st : SyncState) (k : String) (v : SyncEntry) :
    stLookup (stSet st k v) k = some v := by
  induction st with
  | nil => simp [stSet, stLookup]
  | cons p rest ih =>
    obtain ⟨k0, w⟩ := p
    unfold stSet
    by_cases h : k0 = k
    · rw [if_pos h]; simp [stLookup]
    · rw [if_neg h]
      unfold stLookup
      rw [if_neg h]
      exact ih

lemma embedAll_complete (embed : List Char → Except Unit Unit)
    (hE : ∀ t, embed t = Except.ok ()) :
    ∀ chunks : List Chunk, embedAll embed chunks = true := by
  intro chunks
  induction chunks with
  | nil => rfl
  | cons ch rest ih =>
    unfold embedAll
    rw [hE ch.text]
    exact ih

/-! ### Claim theorems -/

/-- C10: memory-type classification is case-insensitive — the text is
lowercased before any pattern is matched, so two texts with the same
lowercase form receive the same `(category, confidence)` pair. -/
theorem c10_detect_case_insensitive (t1 t2 : List Char)
    (h : pyLower t1 = pyLower t2) :
    detect_memory_type t1 = detect_memory_type t2 := by
  unfold detect_memory_type
  rw [h]

theorem c10_witness :
    pyLower "We DECIDED To Use PostgreSQL".toList =
      pyLower "we decided to use postgresql".toList ∧
    detect_memory_type "We DECIDED To Use PostgreSQL".toList =
      detect_memory_type "we decided to use postgresql".toList :=
  ⟨by decide, c10_detect_case_insensitive _ _ (by decide)⟩

/-- C4: the classifier evaluates the rule categories in the fixed order
decision, bugfix, architecture, preference, snippet and returns the first
matching category with its fixed confidence (0.8, 0.8, 0.7, 0.7, 0.6,
default context 0.5); the input about PostgreSQL classifies as decision
with confidence 0.8 and its tag list contains `postgresql`. -/
theorem c4_classifier_priority_and_confidence :
    (detect_memory_type "We decided to use PostgreSQL for storage".toList =
        ("decision", 0.8) ∧
      "postgresql" ∈ extract_tags "We decided to use PostgreSQL for storage".toList) ∧
    (∀ t, matchCategory DECISION_PATTERNS (pyLower t) = true →
      detect_memory_type t = ("decision", 0.8)) ∧
    (∀ t, matchCategory DECISION_PATTERNS (pyLower t) = false →
      matchCategory BUGFIX_PATTERNS (pyLower t) = true →
      detect_memory_type t = ("bugfix", 0.8)) ∧
    (∀ t, matchCategory DECISION_PATTERNS (pyLower t) = false →
      matchCategory BUGFIX_PATTERNS (pyLower t) = false →
      matchCategory ARCHITECTURE_PATTERNS (pyLower t) = true →
      detect_memory_type t = ("architecture", 0.7)) ∧
    (∀ t, matchCategory DECISION_PATTERNS (pyLower t) = false →
      matchCategory BUGFIX_PATTERNS (pyLower t) = false →
      matchCategory ARCHITECTURE_PATTERNS (pyLower t) = false →
      matchCategory PREFERENCE_PATTERNS (pyLower t) = true →
      detect_memory_type t = ("preference", 0.7)) ∧
    (∀ t, matchCategory DECISION_PATTERNS (pyLower t) = false →
      matchCategory BUGFIX_PATTERNS (pyLower t) = false →
      matchCategory ARCHITECTURE_PATTERNS (pyLower t) = false →
      matchCategory PREFERENCE_PATTERNS (pyLower t) = false →
      snippetMatch (pyLower t) = true →
      detect_memory_type t = ("snippet", 0.6)) ∧
    (∀ t, matchCategory DECISION_PATTERNS (pyLower t) = false →
      matchCategory BUGFIX_PATTERNS (pyLower t) = false →
      matchCategory ARCHITECTURE_PATTERNS (pyLower t) = false →
      matchCategory PREFERENCE_PATTERNS (pyLower t) = false →
      snippetMatch (pyLower t) = false →
      detect_memory_type t = ("context", 0.5)) := by
  refine ⟨⟨rfl, by decide⟩, ?_, ?_, ?_, ?_, ?_, ?_⟩
  · intro t h1; simp [detect_memory_type, h1]
  · intro t h1 h2; simp [detect_memory_type, h1, h2]
  · intro t h1 h2 h3; simp [detect_memory_type, h1, h2, h3]
  · intro t h1 h2 h3 h4; simp [detect_memory_type, h1, h2, h3, h4]
  · intro t h1 h2 h3 h4 h5; simp [detect_memory_type, h1, h2, h3, h4, h5]
  · intro t h1 h2 h3 h4 h5; simp [detect_memory_type, h1, h2, h3, h4, h5]

theorem c4_witness :
    detect_memory_type "sample: run it".toList = ("snippet", 0.6) :=
  c4_classifier_priority_and_confidence.2.2.2.2.2.1 "sample: run it".toList
    (by decide) (by decide) (by decide) (by decide) (by decide)

lemma rag_capture_filter_aux (minConf : ℚ) :
    ∀ (mems : List ExtractedMemory) (cap : List ExtractedMemory) (sk : Nat),
      (mems.foldl
        (fun acc m =>
          if m.confidence < minConf then (acc.1, acc.2 + 1) else (acc.1 ++ [m], acc.2))
        (cap, sk)).1.length +
        (mems.foldl
          (fun acc m =>
            if m.confidence < minConf then (acc.1, acc.2 + 1) else (acc.1 ++ [m], acc.2))
          (cap, sk)).2 = cap.length + sk + mems.length ∧
      ∀ m ∈ (mems.foldl
          (fun acc m =>
            if m.confidence < minConf then (acc.1, acc.2 + 1) else (acc.1 ++ [m], acc.2))
          (cap, sk)).1, m ∈ cap ∨ ¬ m.confidence < minConf := by
  intro mems
  induction mems with
  | nil => intro cap sk; exact ⟨by simp, fun m hm => Or.inl hm⟩
  | cons m rest ih =>
    intro cap sk
    by_cases h : m.confidence < minConf
    · rw [List.foldl_cons, if_pos h]
      dsimp only
      obtain ⟨ih1, ih2⟩ := ih cap (sk + 1)
      refine ⟨?_, ih2⟩
      rw [ih1]
      simp only [List.length_cons]
      omega
    · rw [List.foldl_cons, if_neg h]
      dsimp only
      obtain ⟨ih1, ih2⟩ := ih (cap ++ [m]) sk
      refine ⟨?_, fun x hx => ?_⟩
      · rw [ih1]
        simp only [List.length_append, List.length_cons, List.length_nil]
        omega
      rcases ih2 x hx with h1 | h2
      · rcases List.mem_append.mp h1 with ha | hb
        · exact Or.inl ha
        · obtain rfl := List.mem_singleton.mp hb
          exact Or.inr h
      · exact Or.inr h2

/-- C3 counterexample: this assistant utterance is longer than 50
characters and matches no classification pattern, so it is classified
`("context", 0.5)` — yet `parse_session_file` emits no candidate for it
at all (`if confidence >= 0.7` inside the classifier), refuting the claim
that such an utterance reaches the caller and that the caller's
minimum-confidence threshold is the only filter dropping candidates. -/
theorem c3_counterexample :
    detect_memory_type "The sky was painted in deep violet hues as evening fell over the quiet mountain town.".toList =
      ("context", 0.5) ∧
    50 < "The sky was painted in deep violet hues as evening fell over the quiet mountain town.".toList.length ∧
    memory_from_text "session.jsonl" "2025-01-01T00:00:00"
      "The sky was painted in deep violet hues as evening fell over the quiet mountain town.".toList = none := by
  refine ⟨rfl, by decide, ?_⟩
  unfold memory_from_text
  rw [if_pos (by decide :
    50 < "The sky was painted in deep violet hues as evening fell over the quiet mountain town.".toList.length)]
  rw [show detect_memory_type "The sky was painted in deep violet hues as evening fell over the quiet mountain town.".toList =
    ("context", 0.5) from rfl]
  norm_num

/-- C3 amended: `parse_session_file` itself only emits candidates of
confidence at least 0.7, so context (0.5) and snippet (0.6) candidates
are dropped inside the classifier and never reach the caller; the
caller's minimum-confidence threshold is an additional filter over the
emitted candidates, and it counts every dropped candidate as skipped
(kept plus skipped partitions the input, and every kept candidate is at
or above the threshold). -/
theorem c3_amended_internal_threshold :
    (∀ src ts txt m, memory_from_text src ts txt = some m → 0.7 ≤ m.confidence) ∧
    (∀ src ts txt, (detect_memory_type txt).2 < 0.7 → memory_from_text src ts txt = none) ∧
    (∀ (mems : List ExtractedMemory) (minConf : ℚ),
      (rag_capture_filter mems minConf).1.length + (rag_capture_filter mems minConf).2 =
        mems.length ∧
      ∀ m ∈ (rag_capture_filter mems minConf).1, ¬ m.confidence < minConf) := by
  refine ⟨?_, ?_, ?_⟩
  · intro src ts txt m h
    unfold memory_from_text at h
    split at h
    · split at h
      · next hc =>
        obtain rfl := Option.some.inj h
        exact hc
      · exact Option.noConfusion h
    · exact Option.noConfusion h
  · intro src ts txt h
    unfold memory_from_text
    split
    · rw [if_neg (not_le.mpr h)]
    · rfl
  · intro mems minConf
    obtain ⟨h1, h2⟩ := rag_capture_filter_aux minConf mems [] 0
    unfold rag_capture_filter
    refine ⟨by simpa using h1, fun m hm => ?_⟩
    rcases h2 m hm with h | h
    · exact absurd h (List.not_mem_nil m)
    · exact h

theorem c3_witness :
    memory_from_text "w" "w"
      "The sky was painted in deep violet hues as evening fell over the quiet mountain town.".toList = none :=
  c3_amended_internal_threshold.2.1 "w" "w" _
    (by rw [show detect_memory_type "The sky was painted in deep violet hues as evening fell over the quiet mountain town.".toList =
          ("context", 0.5) from rfl]
        norm_num)

/-- C5: the two `get_project_id` implementations use different digest
algorithms (md5 in `mcp_server.py`, sha256 in `web_ui.py`), and even under
the most favourable assumption that both digests return the same hex
string for the working directory, the derived partition paths still
differ: the MCP server stores project data under
`base/projects/{id}` while the web UI resolves `base/{id}` with no
`projects` component — contradicting `web_ui.py`'s own docstring
`matches mcp_server.py structure`. -/
theorem c5_partition_divergence :
    mcp_get_db_path (fun _ => "00112233445566778899aabbccddeeff")
        "/home/user/.local/share/claude-memory" "/home/user/proj" "project" =
      "/home/user/.local/share/claude-memory/projects/001122334455" ∧
    webui_get_db_path (fun _ => "00112233445566778899aabbccddeeff")
        "/home/user/.local/share/claude-memory" "/home/user/proj" "project" =
      "/home/user/.local/share/claude-memory/001122334455" ∧
    mcp_get_db_path (fun _ => "00112233445566778899aabbccddeeff")
        "/home/user/.local/share/claude-memory" "/home/user/proj" "project" ≠
      webui_get_db_path (fun _ => "00112233445566778899aabbccddeeff")
        "/home/user/.local/share/claude-memory" "/home/user/proj" "project" := by
  refine ⟨by decide, by decide, by decide⟩

/-- C8 counterexample: with the fixed overlap of 50, calling
`chunk_generic` at chunk-size 50 makes the window step zero, and Python
`range(0, n, 0)` raises `ValueError` — the configuration is neither
rejected nor clamped and windowed splitting fails. -/
theorem c8_counterexample : chunk_generic ['a'] 50 = none := rfl

/-- C8 amended: no rejection or clamping of the overlap/chunk-size
configuration exists.  At chunk-size exactly 50 the zero step makes
`chunk_generic` raise for every input (and `chunk_markdown` raises as
soon as a section exceeds the chunk size); below 50 the negative step
silently yields no windows, so only the single fallback chunk is
returned; only above 50 is the step positive and windowed splitting
total. -/
theorem c8_amended_step_behaviour :
    (∀ c : List Char, chunk_generic c 50 = none) ∧
    (∀ (c : List Char) (n : Nat), n < 50 → chunk_generic c n = some [⟨c, "chunk"⟩]) ∧
    (∀ (c : List Char) (n : Nat), 50 < n → (chunk_generic c n).isSome) ∧
    chunk_markdown (List.replicate 51 'a') 50 = none := by
  refine ⟨?_, ?_, ?_, by decide⟩
  · intro c
    unfold chunk_generic pyRangeIdx
    norm_num
  · intro c n h
    have h0 : ((n : Int) - 50 ≠ 0) := by omega
    have hneg : ((n : Int) - 50 < 0) := by omega
    unfold chunk_generic pyRangeIdx
    rw [if_neg h0, if_pos hneg]
    rfl
  · intro c n h
    exact isSome_map_of _ _ (pyRangeIdx_isSome _ _ (by omega))

theorem c8_witness :
    chunk_generic "abc".toList 30 = some [⟨"abc".toList, "chunk"⟩] ∧
    (chunk_generic "abc".toList 500).isSome :=
  ⟨c8_amended_step_behaviour.2.1 "abc".toList 30 (by decide),
   c8_amended_step_behaviour.2.2.1 "abc".toList 500 (by decide)⟩

set_option maxRecDepth 4000 in
/-- C6 counterexample: definition-based segmentation does not bound chunk
length by the chunk size.  A 501-character module with no definition
headers becomes a single `module` chunk of length 501 under chunk-size
500 — a chunk that exceeds the configured size and is not the generic
fallback chunk, refuting the claimed invariant. -/
theorem c6_counterexample :
    chunk_python (List.replicate 501 'a') 500 =
      some [⟨List.replicate 501 'a', "module"⟩] ∧
    500 < (Chunk.mk (List.replicate 501 'a') "module").text.length := by
  exact ⟨by decide, by decide⟩

/-- C6 amended: chunks from structured-doc and generic segmentation have
non-empty trimmed text and length at most the chunk size, except the
single fallback chunk (whose trimmed text may be empty, and which for
generic segmentation may exceed the size); chunks from definition-based
segmentation always have non-empty trimmed text but their length is
bounded only by the extent of the definition, not by the chunk size. -/
theorem c6_amended_chunk_invariants :
    (∀ (c : List Char) (n : Nat) (l : List Chunk), chunk_markdown c n = some l →
      ∀ ch ∈ l, ch.text.length ≤ n ∧
        (pyStrip ch.text ≠ [] ∨ l = [⟨c.take n, "chunk"⟩])) ∧
    (∀ (c : List Char) (n : Nat) (l : List Chunk), chunk_generic c n = some l →
      ∀ ch ∈ l, (ch.text.length ≤ n ∧ pyStrip ch.text ≠ []) ∨ l = [⟨c, "chunk"⟩]) ∧
    (∀ (c : List Char) (n : Nat) (l : List Chunk), chunk_python c n = some l →
      ∀ ch ∈ l, pyStrip ch.text ≠ []) :=
  ⟨fun c n l h ch hm => chunk_markdown_inv c n l h ch hm,
   fun c n l h ch hm => chunk_generic_inv c n l h ch hm,
   fun c n l h ch hm => chunk_python_inv c n l h ch hm⟩

theorem c6_witness :
    ("hello world".toList.length ≤ 500 ∧ pyStrip "hello world".toList ≠ []) ∨
      [Chunk.mk "hello world".toList "chunk"] = [⟨"hello world".toList, "chunk"⟩] :=
  c6_amended_chunk_invariants.2.1 "hello world".toList 500
    [⟨"hello world".toList, "chunk"⟩] (by decide)
    ⟨"hello world".toList, "chunk"⟩ (by decide)

lemma sync_file_unchanged (embed : List Char → Except Unit Unit)
    (fileHash : List Char → String) (chunkId : List Char → String → Nat → String)
    (scope now fp ft : String) (store : Store) (state : SyncState) (content : List Char)
    (hstored : (stLookup state (stateKey scope fp)).map SyncEntry.hash =
      some (fileHash content)) :
    sync_file embed fileHash chunkId scope false now store state fp (some content) ft =
      (store, state, FileResult.unchanged) := by
  unfold sync_file
  dsimp only
  rw [if_pos ⟨rfl, hstored⟩]

lemma sync_file_updated (embed : List Char → Except Unit Unit)
    (fileHash : List Char → String) (chunkId : List Char → String → Nat → String)
    (scope now fp ft : String) (force : Bool) (store : Store) (state : SyncState)
    (content : List Char)
    (hskip : ¬ (force = false ∧ (stLookup state (stateKey scope fp)).map SyncEntry.hash =
      some (fileHash content)))
    (hE : ∀ t, embed t = Except.ok ()) :
    ∃ chunks, chunk_content content ft 500 = some chunks ∧
      sync_file embed fileHash chunkId scope force now store state fp (some content) ft =
        ((syncUpsertLoop embed chunkId fp chunks 0 (deleteSource store (sourcePat fp))).1,
         stSet state (stateKey scope fp) ⟨fileHash content, now, chunks.length⟩,
         FileResult.updated chunks.length) := by
  obtain ⟨chunks, hchunks⟩ :=
    Option.isSome_iff_exists.mp (chunk_content_isSome content ft 500 (by norm_num))
  refine ⟨chunks, hchunks, ?_⟩
  unfold sync_file
  dsimp only
  rw [if_neg hskip, hchunks]
  dsimp only
  have hloop2 : (syncUpsertLoop embed chunkId fp chunks 0
      (deleteSource store (sourcePat fp))).2 = true :=
    syncUpsertLoop_complete embed chunkId fp hE chunks 0 _
  have hpair : syncUpsertLoop embed chunkId fp chunks 0
      (deleteSource store (sourcePat fp)) =
      ((syncUpsertLoop embed chunkId fp chunks 0
        (deleteSource store (sourcePat fp))).1, true) :=
    Prod.ext rfl hloop2
  rw [hpair]

lemma sync_file_embed_aborted (embed : List Char → Except Unit Unit)
    (fileHash : List Char → String) (chunkId : List Char → String → Nat → String)
    (scope now fp ft : String) (force : Bool) (store : Store) (state : SyncState)
    (content : List Char) (ch : Chunk) (chs : List Chunk)
    (hskip : ¬ (force = false ∧ (stLookup state (stateKey scope fp)).map SyncEntry.hash =
      some (fileHash content)))
    (hFail : ∀ t, embed t = Except.error ())
    (hchunks : chunk_content content ft 500 = some (ch :: chs)) :
    sync_file embed fileHash chunkId scope force now store state fp (some content) ft =
      (deleteSource store (sourcePat fp), state, FileResult.aborted) := by
  unfold sync_file
  dsimp only
  rw [if_neg hskip, hchunks]
  dsimp only
  have hloop : syncUpsertLoop embed chunkId fp (ch :: chs) 0
      (deleteSource store (sourcePat fp)) =
      (deleteSource store (sourcePat fp), false) := by
    unfold syncUpsertLoop
    rw [hFail ch.text]
  rw [hloop]

/-- C1: when a synced path's current content hash differs from the hash in
its SyncEntry, `rag_sync` first deletes every row whose source matches the
path and only then upserts the freshly segmented chunks, so after the
sync completes the path reports updated, its SyncEntry carries the new
hash, and every row for that source holds the text of a chunk of the new
content — no chunk of the prior version remains. -/
theorem c1_changed_file_full_replacement
    (embed : List Char → Except Unit Unit) (fileHash : List Char → String)
    (chunkId : List Char → String → Nat → String)
    (scope now fp ft : String) (force : Bool) (store : Store) (state : SyncState)
    (content : List Char) (entry : SyncEntry)
    (hstate : stLookup state (stateKey scope fp) = some entry)
    (hne : entry.hash ≠ fileHash content)
    (hE : ∀ t, embed t = Except.ok ()) :
    ∃ chunks, chunk_content content ft 500 = some chunks ∧
      (sync_file embed fileHash chunkId scope force now store state fp
        (some content) ft).2.2 = FileResult.updated chunks.length ∧
      (sync_file embed fileHash chunkId scope force now store state fp
        (some content) ft).2.1 =
        stSet state (stateKey scope fp) ⟨fileHash content, now, chunks.length⟩ ∧
      ∀ e ∈ (sync_file embed fileHash chunkId scope force now store state fp
        (some content) ft).1,
        e.2.source = sourcePat fp → e.2.text ∈ chunks.map Chunk.text := by
  have hskip : ¬ (force = false ∧
      (stLookup state (stateKey scope fp)).map SyncEntry.hash =
        some (fileHash content)) := by
    rintro ⟨-, hmap⟩
    rw [hstate, Option.map_some'] at hmap
    exact hne (Option.some.inj hmap)
  obtain ⟨chunks, hchunks, heq⟩ := sync_file_updated embed fileHash chunkId
    scope now fp ft force store state content hskip hE
  refine ⟨chunks, hchunks, by rw [heq], by rw [heq], ?_⟩
  rw [heq]
  intro e he hsrc
  refine syncUpsertLoop_source_inv embed chunkId fp (chunks.map Chunk.text) chunks
    (fun ch hch => List.mem_map_of_mem _ hch) 0 (deleteSource store (sourcePat fp))
    ?_ e he hsrc
  intro f hf hsf
  exact absurd hsf (deleteSource_not_source store (sourcePat fp) f hf)

/-- C2: syncing the same bytes twice with `force` off reports the second
run as UNCHANGED and performs no delete and no upsert — the store and the
persisted SyncEntry (hash, timestamp, chunk count) are exactly those left
by the first run. -/
theorem c2_sync_idempotent
    (embed : List Char → Except Unit Unit) (fileHash : List Char → String)
    (chunkId : List Char → String → Nat → String)
    (scope now1 now2 fp ft : String) (store : Store) (state : SyncState)
    (content : List Char)
    (hE : ∀ t, embed t = Except.ok ()) :
    sync_file embed fileHash chunkId scope false now2
        (sync_file embed fileHash chunkId scope false now1 store state fp
          (some content) ft).1
        (sync_file embed fileHash chunkId scope false now1 store state fp
          (some content) ft).2.1 fp (some content) ft =
      ((sync_file embed fileHash chunkId scope false now1 store state fp
          (some content) ft).1,
       (sync_file embed fileHash chunkId scope false now1 store state fp
          (some content) ft).2.1,
       FileResult.unchanged) := by
  by_cases hc : (stLookup state (stateKey scope fp)).map SyncEntry.hash =
      some (fileHash content)
  · rw [sync_file_unchanged embed fileHash chunkId scope now1 fp ft store state
      content hc]
    exact sync_file_unchanged embed fileHash chunkId scope now2 fp ft store state
      content hc
  · have hskip : ¬ (false = false ∧
        (stLookup state (stateKey scope fp)).map SyncEntry.hash =
          some (fileHash content)) := by
      rintro ⟨-, hm⟩
      exact hc hm
    obtain ⟨chunks, hchunks, heq⟩ := sync_file_updated embed fileHash chunkId
      scope now1 fp ft false store state content hskip hE
    rw [heq]
    exact sync_file_unchanged embed fileHash chunkId scope now2 fp ft _ _ content
      (by rw [stLookup_stSet_self, Option.map_some'])

/-- C9: a missing sync-state file, or one whose JSON fails to parse, loads
as the empty table instead of raising; a sync run against that empty table
then treats an existing path as never synced and re-indexes it (reports
updated) rather than aborting. -/
theorem c9_sync_state_recovery :
    (∀ p, get_sync_state none p = []) ∧
    (∀ s p, p s = none → get_sync_state (some s) p = []) ∧
    (∀ (raw : Option (List Char)) (p : List Char → Option SyncState),
      (raw = none ∨ ∃ s, raw = some s ∧ p s = none) →
      ∀ (embed : List Char → Except Unit Unit) (fileHash : List Char → String)
        (chunkId : List Char → String → Nat → String)
        (scope now fp ft : String) (store : Store) (content : List Char),
        (∀ t, embed t = Except.ok ()) →
        ∃ n, (sync_file embed fileHash chunkId scope false now store
          (get_sync_state raw p) fp (some content) ft).2.2 =
            FileResult.updated n) := by
  refine ⟨fun p => rfl, fun s p hp => by unfold get_sync_state; dsimp only; rw [hp], ?_⟩
  intro raw p hraw embed fileHash chunkId scope now fp ft store content hE
  have hempty : get_sync_state raw p = [] := by
    rcases hraw with rfl | ⟨s, rfl, hp⟩
    · rfl
    · unfold get_sync_state
      dsimp only
      rw [hp]
  rw [hempty]
  have hskip : ¬ (false = false ∧
      (stLookup ([] : SyncState) (stateKey scope fp)).map SyncEntry.hash =
        some (fileHash content)) := by
    rintro ⟨-, hm⟩
    exact Option.noConfusion hm
  obtain ⟨chunks, -, heq⟩ := sync_file_updated embed fileHash chunkId
    scope now fp ft false store [] content hskip hE
  exact ⟨chunks.length, by rw [heq]⟩

/-- C7 counterexample: a two-path `rag_sync` batch in which the embedding
service is down.  Processing the first path raises on its first chunk's
embedding call, the exception escapes the loop, and the call returns the
single error reply: the second path is never processed even though it
would have produced a chunk, and no aggregate of successes, skips and
failures is reported — refuting the claimed per-item isolation. -/
theorem c7_counterexample :
    rag_sync_model (fun _ => Except.error ()) (fun c => String.mk c)
        (fun _ fp i => fp ++ "#" ++ toString i) "project" false "T"
        [("a.txt", some "alpha".toList, "text"), ("b.txt", some "beta".toList, "text")]
        [] [] =
      ([], [], SyncOutcome.aborted) ∧
    chunk_content "beta".toList "text" 500 = some [⟨"beta".toList, "chunk"⟩] := by
  exact ⟨by decide, by decide⟩

/-- C7 amended: the only isolated per-item failures are the ones the loops
skip explicitly — `rag_index` skips a file whose bytes fail to decode and
still processes and reports the remaining files, and `rag_sync` likewise
isolates missing paths — but an embedding-service connection failure
while processing one file's chunks aborts the entire call: the remaining
files are not processed, the persisted sync state is not written, and the
call returns a single error instead of an aggregate. -/
theorem c7_amended_isolation :
    (∀ (embed : List Char → Except Unit Unit) (docIdFn : String → String)
       (fp1 ft1 fp2 ft2 : String) (c2 : List Char) (store : Store),
       (∀ t, embed t = Except.ok ()) →
       ∃ n, (rag_index_model embed docIdFn
         [(fp1, Except.error (), ft1), (fp2, Except.ok c2, ft2)] store).2 =
           some [(fp2, n)]) ∧
    (∀ (embed : List Char → Except Unit Unit) (fileHash : List Char → String)
       (chunkId : List Char → String → Nat → String)
       (scope now fp1 ft1 : String) (c1 : List Char)
       (rest : List (String × Option (List Char) × String))
       (store : Store) (state : SyncState) (ch : Chunk) (chs : List Chunk),
       (∀ t, embed t = Except.error ()) →
       stLookup state (stateKey scope fp1) = none →
       chunk_content c1 ft1 500 = some (ch :: chs) →
       rag_sync_model embed fileHash chunkId scope false now
         ((fp1, some c1, ft1) :: rest) store state =
         (deleteSource store (sourcePat fp1), state, SyncOutcome.aborted)) := by
  constructor
  · intro embed docIdFn fp1 ft1 fp2 ft2 c2 store hE
    obtain ⟨chunks, hchunks⟩ :=
      Option.isSome_iff_exists.mp (chunk_content_isSome c2 ft2 500 (by norm_num))
    refine ⟨chunks.length, ?_⟩
    simp only [rag_index_model, rag_index_loop, index_file, hchunks,
      embedAll_complete embed hE, if_true, List.nil_append]
  · intro embed fileHash chunkId scope now fp1 ft1 c1 rest store state ch chs
      hFail hlookup hchunks
    have hskip : ¬ (false = false ∧
        (stLookup state (stateKey scope fp1)).map SyncEntry.hash =
          some (fileHash c1)) := by
      rintro ⟨-, hm⟩
      rw [hlookup] at hm
      exact Option.noConfusion hm
    unfold rag_sync_model rag_sync_loop
    rw [sync_file_embed_aborted embed fileHash chunkId scope now fp1 ft1 false
      store state c1 ch chs hskip hFail hchunks]

theorem c1_witness :
    ∃ chunks, chunk_content "fresh".toList "text" 500 = some chunks ∧
      (sync_file (fun _ => Except.ok ()) (fun c => String.mk c)
        (fun _ fp i => fp ++ "#" ++ toString i) "project" false "T1"
        [("k0", ⟨"old".toList, "file:notes.md"⟩)]
        [("project:notes.md", ⟨"OLD", "T0", 1⟩)] "notes.md"
        (some "fresh".toList) "text").2.2 = FileResult.updated chunks.length ∧
      (sync_file (fun _ => Except.ok ()) (fun c => String.mk c)
        (fun _ fp i => fp ++ "#" ++ toString i) "project" false "T1"
        [("k0", ⟨"old".toList, "file:notes.md"⟩)]
        [("project:notes.md", ⟨"OLD", "T0", 1⟩)] "notes.md"
        (some "fresh".toList) "text").2.1 =
        stSet [("project:notes.md", ⟨"OLD", "T0", 1⟩)]
          (stateKey "project" "notes.md")
          ⟨String.mk "fresh".toList, "T1", chunks.length⟩ ∧
      ∀ e ∈ (sync_file (fun _ => Except.ok ()) (fun c => String.mk c)
        (fun _ fp i => fp ++ "#" ++ toString i) "project" false "T1"
        [("k0", ⟨"old".toList, "file:notes.md"⟩)]
        [("project:notes.md", ⟨"OLD", "T0", 1⟩)] "notes.md"
        (some "fresh".toList) "text").1,
        e.2.source = sourcePat "notes.md" → e.2.text ∈ chunks.map Chunk.text :=
  c1_changed_file_full_replacement (fun _ => Except.ok ()) (fun c => String.mk c)
    (fun _ fp i => fp ++ "#" ++ toString i) "project" "T1" "notes.md" "text" false
    [("k0", ⟨"old".toList, "file:notes.md"⟩)]
    [("project:notes.md", ⟨"OLD", "T0", 1⟩)] "fresh".toList ⟨"OLD", "T0", 1⟩
    (by decide) (by decide) (fun _ => rfl)

theorem c2_witness :
    sync_file (fun _ => Except.ok ()) (fun c => String.mk c)
        (fun _ fp i => fp ++ "#" ++ toString i) "s" false "2"
        (sync_file (fun _ => Except.ok ()) (fun c => String.mk c)
          (fun _ fp i => fp ++ "#" ++ toString i) "s" false "1" [] [] "a"
          (some "hi".toList) "text").1
        (sync_file (fun _ => Except.ok ()) (fun c => String.mk c)
          (fun _ fp i => fp ++ "#" ++ toString i) "s" false "1" [] [] "a"
          (some "hi".toList) "text").2.1 "a" (some "hi".toList) "text" =
      ((sync_file (fun _ => Except.ok ()) (fun c => String.mk c)
          (fun _ fp i => fp ++ "#" ++ toString i) "s" false "1" [] [] "a"
          (some "hi".toList) "text").1,
       (sync_file (fun _ => Except.ok ()) (fun c => String.mk c)
          (fun _ fp i => fp ++ "#" ++ toString i) "s" false "1" [] [] "a"
          (some "hi".toList) "text").2.1,
       FileResult.unchanged) :=
  c2_sync_idempotent (fun _ => Except.ok ()) (fun c => String.mk c)
    (fun _ fp i => fp ++ "#" ++ toString i) "s" "1" "2" "a" "text" [] []
    "hi".toList (fun _ => rfl)

theorem c9_witness :
    ∃ n, (sync_file (fun _ => Except.ok ()) (fun c => String.mk c)
      (fun _ fp i => fp ++ "#" ++ toString i) "s" false "T" []
      (get_sync_state (some "not json".toList) (fun _ => none)) "a"
      (some "hello".toList) "text").2.2 = FileResult.updated n :=
  c9_sync_state_recovery.2.2 (some "not json".toList) (fun _ => none)
    (Or.inr ⟨"not json".toList, rfl, rfl⟩) (fun _ => Except.ok ())
    (fun c => String.mk c) (fun _ fp i => fp ++ "#" ++ toString i) "s" "T" "a"
    "text" [] "hello".toList (fun _ => rfl)

theorem c7_witness :
    rag_sync_model (fun _ => Except.error ()) (fun c => String.mk c)
        (fun _ fp i => fp ++ "#" ++ toString i) "s" false "T"
        [("x.txt", some "alphatext".toList, "text"),
         ("y.txt", some "more".toList, "text")] [] [] =
      (deleteSource [] (sourcePat "x.txt"), [], SyncOutcome.aborted) :=
  c7_amended_isolation.2 (fun _ => Except.error ()) (fun c => String.mk c)
    (fun _ fp i => fp ++ "#" ++ toString i) "s" "T" "x.txt" "text"
    "alphatext".toList [("y.txt", some "more".toList, "text")] [] []
    ⟨"alphatext".toList, "chunk"⟩ [] (fun _ => rfl) rfl (by decide)
